import Mathlib

/-!
Verification of the MVC to-do list core of `daneecool/electron-app`.

The repository has two interchangeable Store backends with one external
contract:
* the local-storage variant (`src/mvc.js`, `src/unnamed/part_003`): an
  in-memory array of `{id, text, completed}` records, rewritten to the
  key/value store after every mutation (persistence is not modelled — it
  serializes exactly the array modelled here);
* the remote relational variant (`src/unnamed/part_000`,
  `src/Todo-List/mvc_sqlite.js`): one SQLite table
  `todos(id INTEGER PRIMARY KEY AUTOINCREMENT, text, completed)` reached
  through request/response IPC handlers.

This file embeds the Model operations of both variants and the View's
add-button behaviour, and proves the claimed invariants and contracts.
-/

namespace TodoApp

/-- A to-do record `{id, text, completed}` as stored by the Model
(`src/mvc.js`). SQLite's `completed INTEGER 0/1` is modelled as `Bool`
(`0 ↦ false`, `1 ↦ true`). -/
structure Todo where
  id : Nat
  text : String
  completed : Bool
deriving DecidableEq, Repr

/-- The ids of the items, in list order. -/
def ids : List Todo → List Nat
  | [] => []
  | t :: rest => t.id :: ids rest

/-- The id `Model.addTodo` (src/mvc.js line 50) assigns:
`this.todos.length > 0 ? this.todos[this.todos.length - 1].id + 1 : 1`,
i.e. the last element's id plus one, or 1 on an empty list. -/
def newId (todos : List Todo) : Nat :=
  match todos.getLast? with
  | some last => last.id + 1
  | none => 1

/-- `Model.addTodo` (src/mvc.js lines 48-56): builds
`{id: newId, text: todoText, completed: false}` and pushes it onto the
array. The JS method has no return statement. -/
def addTodo (todos : List Todo) (todoText : String) : List Todo :=
  todos ++ [{ id := newId todos, text := todoText, completed := false }]

/-- The value `Model.addTodo` returns to its caller: the JS method body
(src/mvc.js lines 48-56) ends without a `return`, so the call evaluates
to `undefined` — modelled as `none`. -/
def addTodoReturn (_todos : List Todo) (_todoText : String) : Option Todo :=
  none

/-- `Model.toggleTodo` (src/mvc.js lines 61-67):
`this.todos.find(todo => todo.id === id)` locates the first matching
item and, if found, flips its `completed` field in place; if no item
matches, nothing happens. -/
def toggleTodo : List Todo → Nat → List Todo
  | [], _ => []
  | t :: rest, i =>
    if t.id = i then { t with completed := !t.completed } :: rest
    else t :: toggleTodo rest i

/-- `Model.removeTodo` (src/mvc.js lines 72-75):
`this.todos = this.todos.filter(todo => todo.id !== id)`. -/
def removeTodo (todos : List Todo) (id : Nat) : List Todo :=
  todos.filter (fun t => t.id != id)

/-- `Model.getTodos` (src/mvc.js lines 40-42): returns the array. -/
def getTodos (todos : List Todo) : List Todo :=
  todos

/-- Outcome of the remote `toggleTodo` IPC handler. `notFoundError` is
the defined failure the spec requires for an absent id; the observed
code never produces it. `typeErrorCrash` models the uncaught JS
`TypeError` raised by reading a property of `undefined`. -/
inductive RemoteToggleResult where
  | ok (table : List Todo)
  | notFoundError
  | typeErrorCrash
deriving DecidableEq, Repr

/-- The `toggleTodo` IPC handler of the relational variant
(src/unnamed/part_000 lines 106-122). `db.get('SELECT completed FROM
todos WHERE id = ?')` yields no row for an absent id (callback gets
`err = null`, `row = undefined`); the code then evaluates
`row.completed` unconditionally, which on `undefined` throws a
`TypeError` — modelled as `typeErrorCrash`. On a present row it flips
0/1 and runs `UPDATE todos SET completed = ? WHERE id = ?`. -/
def remoteToggleTodo (table : List Todo) (id : Nat) : RemoteToggleResult :=
  match table.find? (fun r => r.id == id) with
  | none => .typeErrorCrash
  | some row =>
      let newCompletedState := !row.completed
      .ok (table.map fun r =>
        if r.id == id then { r with completed := newCompletedState } else r)

/-- The `addTodo` IPC handler of the relational variant
(src/unnamed/part_000 lines 95-103): inserts `(text, 0)`; SQLite's
`AUTOINCREMENT` assigns `lastID = seq + 1` where `seq` is the
never-decreasing sequence counter; the handler resolves with only
`{ id: this.lastID }`, not the row. Returns (new table, new seq,
resolved id). -/
def remoteAddTodo (table : List Todo) (seq : Nat) (todoText : String) :
    List Todo × Nat × Nat :=
  let lastID := seq + 1
  (table ++ [{ id := lastID, text := todoText, completed := false }], lastID, lastID)

/-- JS `String.prototype.trim` whitespace set per ECMA-262: WhiteSpace
(tab, VT, FF, space, NBSP, ZWNBSP/BOM and every Space_Separator (Zs)
code point: U+1680, U+2000-U+200A, U+202F, U+205F, U+3000) together
with LineTerminator (LF, CR, LS, PS). -/
def jsWhitespace (c : Char) : Bool :=
  c == ' ' || c == '\t' || c == '\n' || c == '\r' ||
  c == Char.ofNat 11 || c == Char.ofNat 12 || c == Char.ofNat 0xa0 ||
  c == Char.ofNat 0x1680 ||
  c == Char.ofNat 0x2000 || c == Char.ofNat 0x2001 ||
  c == Char.ofNat 0x2002 || c == Char.ofNat 0x2003 ||
  c == Char.ofNat 0x2004 || c == Char.ofNat 0x2005 ||
  c == Char.ofNat 0x2006 || c == Char.ofNat 0x2007 ||
  c == Char.ofNat 0x2008 || c == Char.ofNat 0x2009 ||
  c == Char.ofNat 0x200a ||
  c == Char.ofNat 0x2028 || c == Char.ofNat 0x2029 ||
  c == Char.ofNat 0x202f || c == Char.ofNat 0x205f ||
  c == Char.ofNat 0x3000 || c == Char.ofNat 0xfeff

/-- JS `String.prototype.trim`: remove leading and trailing whitespace. -/
def jsTrim (s : String) : String :=
  ⟨((s.data.dropWhile jsWhitespace).reverse.dropWhile jsWhitespace).reverse⟩

/-- One click of the Add button, as wired by `View.bindAddTodo`
(src/mvc.js lines 130-140) to `Controller.handleAddTodo` (lines
199-202): `const todoText = this.inputField.value.trim(); if (todoText)
{ handler(todoText); this.inputField.value = ''; } else { alert(...) }`.
The handler runs `Model.addTodo` then re-renders. JS truthiness of a
string is non-emptiness. Returns (todos after the click, input field
after the click, whether the handler was invoked). -/
def clickAddTodo (todos : List Todo) (inputValue : String) :
    List Todo × String × Bool :=
  let todoText := jsTrim inputValue
  if todoText = "" then (todos, inputValue, false)
  else (addTodo todos todoText, "", true)

/-- Operations a user can perform between an `add` and the next `add`:
toggling and removing (used to state that a removed id stays absent
until a new item is created). -/
inductive Op where
  | toggle (id : Nat)
  | remove (id : Nat)

/-- Apply one Model operation. -/
def applyOp (todos : List Todo) : Op → List Todo
  | .toggle i => toggleTodo todos i
  | .remove i => removeTodo todos i

/-- Run a sequence of toggle/remove operations, left to right. -/
def runOps (todos : List Todo) : List Op → List Todo
  | [] => todos
  | op :: rest => runOps (applyOp todos op) rest

/-- Boolean test that a list of ids is strictly increasing. -/
def sortedIdsB : List Nat → Bool
  | [] => true
  | [_] => true
  | a :: b :: rest => decide (a < b) && sortedIdsB (b :: rest)

/-- Boolean test that the items' ids are strictly increasing in list
order (the local-storage variant's reachable-state invariant). -/
def sortedLt (todos : List Todo) : Bool :=
  sortedIdsB (ids todos)

/-- The id of the last item, 0 for an empty list. -/
def lastIdNat : List Nat → Nat
  | [] => 0
  | [a] => a
  | _ :: b :: rest => lastIdNat (b :: rest)

/-- The maximum id present, 0 for an empty list. -/
def maxId (todos : List Todo) : Nat :=
  (ids todos).foldr max 0

/-! ### Helper lemmas -/

/-- Membership in `ids` of a cons cell. -/
theorem mem_ids_cons {i : Nat} {t : Todo} {rest : List Todo} :
    i ∈ ids (t :: rest) ↔ i = t.id ∨ i ∈ ids rest := by
  simp [ids]

/-- `ids` is the map of the `id` projection. -/
theorem ids_eq_map (s : List Todo) : ids s = s.map Todo.id := by
  induction s with
  | nil => rfl
  | cons t rest ih => simp [ids, ih]

/-- `ids` distributes over append. -/
theorem ids_append (s₁ s₂ : List Todo) : ids (s₁ ++ s₂) = ids s₁ ++ ids s₂ := by
  simp [ids_eq_map]

/-- Adding appends exactly the freshly assigned id. -/
theorem ids_addTodo (s : List Todo) (t : String) :
    ids (addTodo s t) = ids s ++ [newId s] := by
  simp [addTodo, ids_append, ids]

/-- Toggling never changes the sequence of ids. -/
theorem ids_toggleTodo (s : List Todo) (i : Nat) :
    ids (toggleTodo s i) = ids s := by
  induction s with
  | nil => rfl
  | cons t rest ih =>
    obtain ⟨tid, ttext, tc⟩ := t
    by_cases hid : tid = i
    · simp [toggleTodo, hid, ids]
    · simp [toggleTodo, hid, ids, ih]

/-- The ids surviving a removal form a sublist of the original ids. -/
theorem ids_removeTodo_sublist (s : List Todo) (j : Nat) :
    List.Sublist (ids (removeTodo s j)) (ids s) := by
  rw [ids_eq_map, ids_eq_map]
  exact (List.filter_sublist s).map Todo.id

/-- The removed id is gone right after `removeTodo`. -/
theorem not_mem_ids_removeTodo (s : List Todo) (i : Nat) :
    i ∉ ids (removeTodo s i) := by
  rw [ids_eq_map]
  intro h
  obtain ⟨t, ht, hti⟩ := List.mem_map.mp h
  have h2 := (List.mem_filter.mp ht).2
  rw [hti] at h2
  simp at h2

/-- Neither toggling nor removing can introduce an absent id. -/
theorem not_mem_ids_applyOp {s : List Todo} {i : Nat} (h : i ∉ ids s) (op : Op) :
    i ∉ ids (applyOp s op) := by
  cases op with
  | toggle j => simpa [applyOp, ids_toggleTodo] using h
  | remove j => exact fun hc => h ((ids_removeTodo_sublist s j).subset hc)

/-- An absent id stays absent under any toggle/remove sequence. -/
theorem not_mem_ids_runOps {i : Nat} (ops : List Op) {s : List Todo}
    (h : i ∉ ids s) : i ∉ ids (runOps s ops) := by
  induction ops generalizing s with
  | nil => exact h
  | cons op rest ih => exact ih (not_mem_ids_applyOp h op)

/-- Removing the same id twice equals removing it once. -/
theorem removeTodo_idem (s : List Todo) (i : Nat) :
    removeTodo (removeTodo s i) i = removeTodo s i := by
  unfold removeTodo
  rw [List.filter_filter]
  exact List.filter_congr (fun t _ => by cases h : (t.id != i) <;> simp [h])

/-- The boolean sortedness test agrees with strict pairwise ordering. -/
theorem sortedIdsB_iff_pairwise (l : List Nat) :
    sortedIdsB l = true ↔ l.Pairwise (· < ·) := by
  induction l with
  | nil => simp [sortedIdsB]
  | cons a t ih =>
    cases t with
    | nil => simp [sortedIdsB]
    | cons b r =>
      simp only [sortedIdsB, Bool.and_eq_true, decide_eq_true_eq, ih]
      constructor
      · rintro ⟨hab, hp⟩
        refine List.pairwise_cons.mpr ⟨?_, hp⟩
        intro x hx
        rcases List.mem_cons.mp hx with h | h
        · exact h ▸ hab
        · exact lt_trans hab ((List.pairwise_cons.mp hp).1 x h)
      · intro h
        exact ⟨(List.pairwise_cons.mp h).1 b (List.mem_cons_self b r),
               (List.pairwise_cons.mp h).2⟩

/-- Every element is bounded by the running `foldr max`. -/
theorem le_foldr_max (l : List Nat) : ∀ n ∈ l, n ≤ l.foldr max 0 := by
  induction l with
  | nil => intro n hn; cases hn
  | cons a t ih =>
    intro n hn
    rcases List.mem_cons.mp hn with h | h
    · subst h; exact Nat.le_max_left _ _
    · exact le_trans (ih n h) (Nat.le_max_right _ _)

/-- In a strictly increasing list every element is at most the last. -/
theorem pairwise_le_lastIdNat (l : List Nat) (hp : l.Pairwise (· < ·)) :
    ∀ n ∈ l, n ≤ lastIdNat l := by
  induction l with
  | nil => intro n hn; cases hn
  | cons a t ih =>
    intro n hn
    cases t with
    | nil =>
      simp at hn
      subst hn
      simp [lastIdNat]
    | cons b r =>
      have hp' : (b :: r).Pairwise (· < ·) := (List.pairwise_cons.mp hp).2
      have hlast : lastIdNat (a :: b :: r) = lastIdNat (b :: r) := by
        simp [lastIdNat]
      rcases List.mem_cons.mp hn with h | h
      · subst h
        have hb : b ≤ lastIdNat (b :: r) :=
          ih hp' b (List.mem_cons_self b r)
        have hnb : n < b := (List.pairwise_cons.mp hp).1 b (List.mem_cons_self b r)
        rw [hlast]
        omega
      · rw [hlast]
        exact ih hp' n h

/-- In a strictly increasing list the last element is the maximum. -/
theorem lastIdNat_eq_foldr (l : List Nat) (h : l.Pairwise (· < ·)) :
    lastIdNat l = l.foldr max 0 := by
  induction l with
  | nil => rfl
  | cons a t ih =>
    cases t with
    | nil => simp [lastIdNat]
    | cons b r =>
      have hp' : (b :: r).Pairwise (· < ·) := (List.pairwise_cons.mp h).2
      have hab : a < b := (List.pairwise_cons.mp h).1 b (List.mem_cons_self b r)
      have hb : b ≤ (b :: r).foldr max 0 := le_foldr_max _ b (List.mem_cons_self b r)
      have hrec : lastIdNat (b :: r) = (b :: r).foldr max 0 := ih hp'
      have hlast : lastIdNat (a :: b :: r) = lastIdNat (b :: r) := by
        simp [lastIdNat]
      rw [hlast, hrec, List.foldr_cons]
      exact (max_eq_right (le_of_lt (lt_of_lt_of_le hab hb))).symm

/-- The id the local `addTodo` assigns is the last id plus one. -/
theorem newId_eq (s : List Todo) : newId s = lastIdNat (ids s) + 1 := by
  induction s with
  | nil => rfl
  | cons a t ih =>
    cases t with
    | nil => simp [newId, ids, lastIdNat]
    | cons b rest =>
      have h1 : newId (a :: b :: rest) = newId (b :: rest) := by
        simp [newId, List.getLast?_cons_cons]
      have h2 : lastIdNat (ids (a :: b :: rest)) = lastIdNat (ids (b :: rest)) := by
        simp [ids, lastIdNat]
      rw [h1, h2, ih]

/-- Appending the fresh id keeps the ids strictly increasing. -/
theorem pairwise_ids_addTodo (s : List Todo) (t : String)
    (h : (ids s).Pairwise (· < ·)) :
    (ids (addTodo s t)).Pairwise (· < ·) := by
  rw [ids_addTodo, List.pairwise_append]
  refine ⟨h, by simp, ?_⟩
  intro a ha b hb
  simp at hb
  subst hb
  have := pairwise_le_lastIdNat (ids s) h a ha
  rw [newId_eq]
  omega

/-- Idempotence of dropping a satisfied prefix (used for trim facts). -/
theorem head?_dropWhile_all {α : Type} (p : α → Bool) (l : List α) :
    ((l.dropWhile p).head?.all fun a => !p a) = true := by
  induction l with
  | nil => rfl
  | cons a t ih =>
    by_cases hp : p a = true
    · simpa [List.dropWhile_cons, hp] using ih
    · simp at hp
      simp [List.dropWhile_cons, hp, Option.all]

/-- Dropping a prefix keeps the last element when anything survives. -/
theorem getLast?_dropWhile_of_ne_nil {α : Type} (p : α → Bool) (l : List α)
    (h : l.dropWhile p ≠ []) : (l.dropWhile p).getLast? = l.getLast? := by
  induction l with
  | nil => simp at h
  | cons a t ih =>
    by_cases hp : p a = true
    · rw [List.dropWhile_cons, if_pos hp] at h ⊢
      rw [ih h]
      cases t with
      | nil => simp at h
      | cons b r => simp [List.getLast?_cons_cons]
    · rw [List.dropWhile_cons, if_neg hp]

/-- The first and last characters of a JS-trimmed string are never
whitespace. -/
theorem jsTrim_no_edge_whitespace (v : String) :
    ((jsTrim v).data.head?.all fun c => !jsWhitespace c) = true ∧
    ((jsTrim v).data.getLast?.all fun c => !jsWhitespace c) = true := by
  constructor
  · show ((((v.data.dropWhile jsWhitespace).reverse.dropWhile
        jsWhitespace).reverse).head?.all fun c => !jsWhitespace c) = true
    rw [List.head?_reverse]
    by_cases hm : (v.data.dropWhile jsWhitespace).reverse.dropWhile jsWhitespace = []
    · rw [hm]; rfl
    · rw [getLast?_dropWhile_of_ne_nil _ _ hm, List.getLast?_reverse]
      exact head?_dropWhile_all _ _
  · show ((((v.data.dropWhile jsWhitespace).reverse.dropWhile
        jsWhitespace).reverse).getLast?.all fun c => !jsWhitespace c) = true
    rw [List.getLast?_reverse]
    exact head?_dropWhile_all _ _

/-! ### Claim theorems -/

/-- Claim C1, counterexample: ids assigned by the local `addTodo` ARE
reused after the item holding the current maximum id is removed. From
the empty store, add assigns id 2 to item "b"; after removing id 2 a
later add assigns id 2 again, to item "c". This refutes "an id assigned
by add is never assigned again to a later-created item ... including
after the item holding the current maximum id has been removed". -/
theorem addTodo_reuses_id_after_remove_max :
    addTodo (addTodo [] "a") "b"
      = [⟨1, "a", false⟩, ⟨2, "b", false⟩] ∧
    addTodo (removeTodo (addTodo (addTodo [] "a") "b") 2) "c"
      = [⟨1, "a", false⟩, ⟨2, "c", false⟩] :=
  ⟨rfl, rfl⟩

/-- Claim C1, amended: in the local-storage variant, on any state whose
ids are strictly increasing in list order (every reachable state), the
id assigned by add is the current maximum plus one (1 if the list is
empty, since the maximum of an empty list is 0) and is distinct from
every id currently in the list; ids of previously removed items may,
however, be reassigned. -/
theorem newId_fresh_and_max_succ (s : List Todo) (h : sortedLt s = true) :
    newId s = maxId s + 1 ∧ newId s ∉ ids s := by
  have hp : (ids s).Pairwise (· < ·) := (sortedIdsB_iff_pairwise (ids s)).mp h
  constructor
  · rw [newId_eq, lastIdNat_eq_foldr (ids s) hp]
    rfl
  · intro hc
    have h1 := pairwise_le_lastIdNat (ids s) hp (newId s) hc
    rw [newId_eq] at h1
    omega

/-- Witness for the amended C1 at a concrete sorted state. -/
theorem newId_fresh_and_max_succ_witness :
    newId [⟨1, "a", false⟩, ⟨3, "b", true⟩]
        = maxId [⟨1, "a", false⟩, ⟨3, "b", true⟩] + 1 ∧
    newId [⟨1, "a", false⟩, ⟨3, "b", true⟩]
        ∉ ids [⟨1, "a", false⟩, ⟨3, "b", true⟩] :=
  newId_fresh_and_max_succ [⟨1, "a", false⟩, ⟨3, "b", true⟩] (by decide)

/-- Claim C2: evaluating the code at the failing input. Calling the
relational variant's toggleTodo handler with an id absent from the
table (here, id 1 against an empty table) crashes with an uncaught
TypeError (reading `completed` of `undefined`), which is not the
defined, catchable NotFoundError the claim states; the local variant's
toggle with an absent id is indeed a silent no-op. -/
theorem remoteToggle_absent_id_crashes_local_noop :
    remoteToggleTodo [] 1 = RemoteToggleResult.typeErrorCrash ∧
    RemoteToggleResult.typeErrorCrash ≠ RemoteToggleResult.notFoundError ∧
    toggleTodo [⟨2, "a", false⟩] 1 = [⟨2, "a", false⟩] := by
  decide

/-- Claim C3, counterexample: `add(t)` does not return the created
TodoItem. The local `Model.addTodo` has no return statement, so its
caller receives `undefined` (modelled `none`), even though the item
`{id: 1, text: "buy milk", completed: false}` was created and stored. -/
theorem addTodo_returns_no_item :
    addTodoReturn [] "buy milk" = none ∧
    addTodo [] "buy milk" = [⟨1, "buy milk", false⟩] :=
  ⟨rfl, rfl⟩

/-- Claim C3, amended: for every non-empty text t, add(t) creates and
appends a TodoItem carrying the assigned id, the text t and
completed = false, but does not return the created item to its caller:
the local variant returns nothing (undefined) and the remote variant
resolves with only the assigned id. -/
theorem addTodo_appends_item_returns_none (s : List Todo) (seq : Nat)
    (t : String) (_h : t ≠ "") :
    addTodo s t = s ++ [{ id := newId s, text := t, completed := false }] ∧
    addTodoReturn s t = none ∧
    remoteAddTodo s seq t
      = (s ++ [{ id := seq + 1, text := t, completed := false }],
         seq + 1, seq + 1) :=
  ⟨rfl, rfl, rfl⟩

/-- Witness for the amended C3 at a concrete input. -/
theorem addTodo_appends_item_returns_none_witness :
    addTodo [] "buy milk" = [] ++ [{ id := newId [], text := "buy milk", completed := false }] ∧
    addTodoReturn [] "buy milk" = none ∧
    remoteAddTodo [] 0 "buy milk"
      = ([] ++ [{ id := 0 + 1, text := "buy milk", completed := false }], 0 + 1, 0 + 1) :=
  addTodo_appends_item_returns_none [] 0 "buy milk" (by decide)

/-- Claim C4: for every store state and non-empty text t, add(t)
followed by list() yields exactly the previous sequence with one new
element appended, so the result is non-empty, its last element is
`{id: newId, text: t, completed: false}`, and every previously listed
item is still present, in its prior order, before it. -/
theorem add_then_list_appends (s : List Todo) (t : String) (_h : t ≠ "") :
    getTodos (addTodo s t)
      = getTodos s ++ [{ id := newId s, text := t, completed := false }] ∧
    (getTodos (addTodo s t)).getLast?
      = some { id := newId s, text := t, completed := false } ∧
    getTodos (addTodo s t) ≠ [] := by
  refine ⟨rfl, ?_, ?_⟩
  · simp [getTodos, addTodo]
  · simp [getTodos, addTodo]

/-- Witness for C4 at a concrete input. -/
theorem add_then_list_appends_witness :
    getTodos (addTodo [⟨1, "a", true⟩] "buy milk")
      = getTodos [⟨1, "a", true⟩]
        ++ [{ id := newId [⟨1, "a", true⟩], text := "buy milk", completed := false }] ∧
    (getTodos (addTodo [⟨1, "a", true⟩] "buy milk")).getLast?
      = some { id := newId [⟨1, "a", true⟩], text := "buy milk", completed := false } ∧
    getTodos (addTodo [⟨1, "a", true⟩] "buy milk") ≠ [] :=
  add_then_list_appends [⟨1, "a", true⟩] "buy milk" (by decide)

/-- Claim C5: toggle is an involution on present ids — toggling the
same id twice in succession restores the store to its prior state. -/
theorem toggleTodo_involution (s : List Todo) (i : Nat) (h : i ∈ ids s) :
    toggleTodo (toggleTodo s i) i = s := by
  induction s with
  | nil => rfl
  | cons t rest ih =>
    obtain ⟨tid, ttext, tc⟩ := t
    by_cases hid : tid = i
    · simp [toggleTodo, hid, Bool.not_not]
    · have h' : i ∈ ids rest := by
        rcases mem_ids_cons.mp h with h1 | h1
        · exact absurd h1.symm hid
        · exact h1
      simp [toggleTodo, hid, ih h']

/-- Witness for C5 at a concrete input. -/
theorem toggleTodo_involution_witness :
    toggleTodo (toggleTodo [⟨1, "a", false⟩, ⟨2, "b", true⟩] 2) 2
      = [⟨1, "a", false⟩, ⟨2, "b", true⟩] :=
  toggleTodo_involution [⟨1, "a", false⟩, ⟨2, "b", true⟩] 2 (by decide)

/-- Claim C6: removal is permanent — after remove(id) the id is absent,
it stays absent under any subsequent sequence of toggle/remove
operations (i.e. until a new item is created), and a second remove of
the same id is a total no-op on the store. -/
theorem removeTodo_permanent_and_idempotent (s : List Todo) (i : Nat)
    (ops : List Op) :
    i ∉ ids (removeTodo s i) ∧
    i ∉ ids (runOps (removeTodo s i) ops) ∧
    removeTodo (removeTodo s i) i = removeTodo s i :=
  ⟨not_mem_ids_removeTodo s i,
   not_mem_ids_runOps ops (not_mem_ids_removeTodo s i),
   removeTodo_idem s i⟩

/-- Claim C7: when the trimmed input is empty the View rejects the
submission locally — the add handler is never invoked, the Store's add
is never called, and the stored list (hence the rendered list, a pure
function of it) is unchanged; even the input field keeps its value. -/
theorem click_empty_input_noop (s : List Todo) (v : String)
    (h : jsTrim v = "") :
    clickAddTodo s v = (s, v, false) ∧
    getTodos (clickAddTodo s v).1 = getTodos s := by
  constructor
  · simp [clickAddTodo, h]
  · simp [clickAddTodo, h, getTodos]

/-- Witness for C7 on whitespace-only input (a full-width ideographic
space U+3000 followed by an ordinary space). -/
theorem click_empty_input_noop_witness :
    clickAddTodo [⟨1, "a", false⟩] "　 " = ([⟨1, "a", false⟩], "　 ", false) ∧
    getTodos (clickAddTodo [⟨1, "a", false⟩] "　 ").1 = getTodos [⟨1, "a", false⟩] :=
  click_empty_input_noop [⟨1, "a", false⟩] "　 " (by decide)

/-- Claim C8 (frame property): for a present id, the store decomposes
as a ++ x :: b with x the first item carrying that id; toggle rewrites
exactly that occurrence to the same record with `completed` negated —
same id, same text — and leaves a and b untouched (contents and
order). -/
theorem toggleTodo_frame (s : List Todo) (i : Nat) (h : i ∈ ids s) :
    ∃ a x b, s = a ++ x :: b ∧ x.id = i ∧ i ∉ ids a ∧
      toggleTodo s i = a ++ { x with completed := !x.completed } :: b := by
  induction s with
  | nil => simp [ids] at h
  | cons t rest ih =>
    by_cases hid : t.id = i
    · exact ⟨[], t, rest, rfl, hid, by simp [ids],
        by simp [toggleTodo, hid]⟩
    · have h' : i ∈ ids rest := by
        rcases mem_ids_cons.mp h with h1 | h1
        · exact absurd h1.symm hid
        · exact h1
      obtain ⟨a, x, b, h1, h2, h3, h4⟩ := ih h'
      refine ⟨t :: a, x, b, by rw [h1]; rfl, h2, ?_, ?_⟩
      · intro hc
        rcases mem_ids_cons.mp hc with hc1 | hc1
        · exact hid hc1.symm
        · exact h3 hc1
      · simp [toggleTodo, hid, h4]

/-- Witness for C8 at a concrete input. -/
theorem toggleTodo_frame_witness :
    ∃ a x b, [(⟨1, "a", false⟩ : Todo), ⟨2, "b", true⟩] = a ++ x :: b ∧
      x.id = 2 ∧ (2 : Nat) ∉ ids a ∧
      toggleTodo [⟨1, "a", false⟩, ⟨2, "b", true⟩] 2
        = a ++ { x with completed := !x.completed } :: b :=
  toggleTodo_frame [⟨1, "a", false⟩, ⟨2, "b", true⟩] 2 (by decide)

/-- Claim C9: the strictly-increasing-ids invariant of the local
variant is preserved by add, toggle and remove; under it the last
element carries the maximum id and the id add assigns (last id plus
one) coincides with the maximum id plus one. -/
theorem sorted_invariant_preserved (s : List Todo) (t : String) (i j : Nat)
    (h : sortedLt s = true) :
    sortedLt (addTodo s t) = true ∧
    sortedLt (toggleTodo s i) = true ∧
    sortedLt (removeTodo s j) = true ∧
    lastIdNat (ids s) = maxId s ∧
    newId s = maxId s + 1 := by
  have hp : (ids s).Pairwise (· < ·) := (sortedIdsB_iff_pairwise (ids s)).mp h
  refine ⟨?_, ?_, ?_, ?_, ?_⟩
  · exact (sortedIdsB_iff_pairwise _).mpr (pairwise_ids_addTodo s t hp)
  · show sortedIdsB (ids (toggleTodo s i)) = true
    rw [ids_toggleTodo]
    exact h
  · exact (sortedIdsB_iff_pairwise _).mpr
      (List.Pairwise.sublist (ids_removeTodo_sublist s j) hp)
  · exact lastIdNat_eq_foldr (ids s) hp
  · rw [newId_eq, lastIdNat_eq_foldr (ids s) hp]
    rfl

/-- Witness for C9 at a concrete sorted state. -/
theorem sorted_invariant_preserved_witness :
    sortedLt (addTodo [⟨1, "a", false⟩, ⟨4, "b", true⟩] "c") = true ∧
    sortedLt (toggleTodo [⟨1, "a", false⟩, ⟨4, "b", true⟩] 4) = true ∧
    sortedLt (removeTodo [⟨1, "a", false⟩, ⟨4, "b", true⟩] 1) = true ∧
    lastIdNat (ids [⟨1, "a", false⟩, ⟨4, "b", true⟩])
      = maxId [⟨1, "a", false⟩, ⟨4, "b", true⟩] ∧
    newId [⟨1, "a", false⟩, ⟨4, "b", true⟩]
      = maxId [⟨1, "a", false⟩, ⟨4, "b", true⟩] + 1 :=
  sorted_invariant_preserved [⟨1, "a", false⟩, ⟨4, "b", true⟩] "c" 4 1 (by decide)

/-- Claim C10: every item created through the View's submit path stores
the whitespace-trimmed input — on a click whose trimmed input is
non-empty, the store becomes add(trim(v)), the appended item's text is
exactly trim(v), and that stored text carries no leading or trailing
whitespace (its first and last characters are not whitespace). -/
theorem click_stores_trimmed_text (s : List Todo) (v : String)
    (h : jsTrim v ≠ "") :
    (clickAddTodo s v).1 = addTodo s (jsTrim v) ∧
    ((clickAddTodo s v).1.getLast?).map Todo.text = some (jsTrim v) ∧
    ((jsTrim v).data.head?.all fun c => !jsWhitespace c) = true ∧
    ((jsTrim v).data.getLast?.all fun c => !jsWhitespace c) = true := by
  refine ⟨?_, ?_, (jsTrim_no_edge_whitespace v).1, (jsTrim_no_edge_whitespace v).2⟩
  · simp [clickAddTodo, h]
  · simp [clickAddTodo, h, addTodo]

/-- Witness for C10 on input with surrounding whitespace, including a
leading full-width ideographic space U+3000. -/
theorem click_stores_trimmed_text_witness :
    (clickAddTodo [] "　hi ").1 = addTodo [] (jsTrim "　hi ") ∧
    ((clickAddTodo [] "　hi ").1.getLast?).map Todo.text
      = some (jsTrim "　hi ") ∧
    ((jsTrim "　hi ").data.head?.all fun c => !jsWhitespace c) = true ∧
    ((jsTrim "　hi ").data.getLast?.all fun c => !jsWhitespace c) = true :=
  click_stores_trimmed_text [] "　hi " (by decide)

end TodoApp
